import Mathlib

/-!
Verification of the SellMyPi backend (Express + Mongoose + Clerk + Cloudinary).

Shallow embedding of the meaningful logic of the repository:
* `models/Transaction.js` — the transaction schema (required fields, status
  enumeration, timestamps) becomes the `Transaction` structure plus the
  `payloadValid` check;
* `routes/transactionRoutes.js` — create / list / search / update-status /
  delete handlers become pure functions over a store modelled as
  `List Transaction`;
* `routes/userRoutes.js` — the Clerk-then-transactions cascade delete, with
  the external Clerk call modelled by a boolean outcome;
* `routes/cloudinaryRoutes.js` — `extractCloudinaryInfo` (the two JS regexes
  are implemented operationally, with JS leftmost-match and greedy/lazy
  backtracking order made explicit) and the `/delete` handler, with the
  external `cloudinary.uploader.destroy` call modelled by its result string.

External engines (MongoDB `$regex`, the JS regex engine) are out-of-scope
collaborators; they are modelled operationally on exactly the pattern
fragments the development needs, as documented at each definition.
-/

/-! ## JavaScript value model

Request-body fields can be absent (`undefined`), `null`, strings, numbers or
booleans.  `truthy` is JavaScript truthiness on that fragment (empty string,
`0`, `false`, `null`, `undefined` are falsy). -/

inductive JSValue where
  | undefined
  | null
  | str (s : String)
  | num (n : Int)
  | bool (b : Bool)
deriving DecidableEq, Repr

def truthy : JSValue → Bool
  | .undefined => false
  | .null => false
  | .str s => !(s = "")
  | .num n => !(n = 0)
  | .bool b => b

/-- JavaScript `a || b`: `a` when truthy, otherwise `b`. -/
def jsOr (a b : JSValue) : JSValue := if truthy a then a else b

def optToJS : Option String → JSValue
  | some s => .str s
  | none => .null

/-! ## Data model (`models/Transaction.js`)

`userInfoSchema`: `{id, username, email, phone}`, all required strings.
`transactionSchema`: status (enum, default `pending`), userInfo, upiId,
piAmount (Number), usdValue/inrValue/SellRateUsd/SellRateInr (String),
imageUrl, plus mongoose-managed `createdAt`/`updatedAt` (modelled as `Nat`
clock values) and the generated `_id` (modelled as a `String`). -/

structure UserInfo where
  id : String
  username : String
  email : String
  phone : String
deriving DecidableEq, Repr

structure Transaction where
  id : String
  status : String
  userInfo : UserInfo
  upiId : String
  piAmount : Int
  usdValue : String
  inrValue : String
  SellRateUsd : String
  SellRateInr : String
  imageUrl : String
  createdAt : Nat
  updatedAt : Nat
deriving DecidableEq, Repr

/-- The `enum` list of `transactionSchema.status`, in source order. -/
def validStatuses : List String :=
  ["pending", "approved", "rejected", "completed", "processing"]

/-! ## Transaction service (`routes/transactionRoutes.js`) -/

/-- The request body of `POST /api/transactions` as destructured by the
handler.  Every field may be absent.  A `status` field in the body is kept
here to record that the handler's destructuring ignores it. -/
structure CreatePayload where
  piAmount : Option Int
  usdValue : Option String
  inrValue : Option String
  upiId : Option String
  imageUrl : Option String
  userInfo : Option UserInfo
  SellRateUsd : Option String
  SellRateInr : Option String
  status : Option String
deriving DecidableEq, Repr

/-- Mongoose schema validation on `save()`: all required fields present. -/
def payloadValid (p : CreatePayload) : Bool :=
  p.piAmount.isSome && p.usdValue.isSome && p.inrValue.isSome &&
  p.upiId.isSome && p.imageUrl.isSome && p.userInfo.isSome &&
  p.SellRateUsd.isSome && p.SellRateInr.isSome

/-- The document built by `new Transaction({...})` + `save()`: the schema
default sets `status := "pending"`, `timestamps: true` sets both timestamps
to the save time, and the store generates the id. -/
def mkTransaction (p : CreatePayload) (newId : String) (now : Nat) : Transaction :=
  { id := newId
    status := "pending"
    userInfo := p.userInfo.getD ⟨"", "", "", ""⟩
    upiId := p.upiId.getD ""
    piAmount := p.piAmount.getD 0
    usdValue := p.usdValue.getD ""
    inrValue := p.inrValue.getD ""
    SellRateUsd := p.SellRateUsd.getD ""
    SellRateInr := p.SellRateInr.getD ""
    imageUrl := p.imageUrl.getD ""
    createdAt := now
    updatedAt := now }

inductive CreateResult where
  /-- 201 `{success, data}` with the saved document. -/
  | created (t : Transaction)
  /-- 500 `{success:false, error, details}` (validation failure on save). -/
  | saveFailed
deriving DecidableEq, Repr

/-- `POST /api/transactions`. -/
def createTransaction (store : List Transaction) (p : CreatePayload)
    (newId : String) (now : Nat) : CreateResult × List Transaction :=
  if payloadValid p then
    (.created (mkTransaction p newId now), store ++ [mkTransaction p newId now])
  else
    (.saveFailed, store)

inductive UpdateStatusResult where
  | badRequest
  | notFound
  | ok (t : Transaction)
deriving DecidableEq, Repr

/-- The HTTP status the handler answers with for each outcome. -/
def UpdateStatusResult.statusCode : UpdateStatusResult → Nat
  | .badRequest => 400
  | .notFound => 404
  | .ok _ => 200

/-- What `findByIdAndUpdate(id, { status }, { new: true })` does to the
matched document: sets `status`, and (timestamps) refreshes `updatedAt`. -/
def applyStatusUpdate (newStatus : String) (now : Nat) (t : Transaction) : Transaction :=
  { t with status := newStatus, updatedAt := now }

/-- `findByIdAndUpdate`: update the first document with the given id,
returning the updated document (`new: true`) and the updated store. -/
def updateById (id : String) (f : Transaction → Transaction) :
    List Transaction → Option Transaction × List Transaction
  | [] => (none, [])
  | t :: ts =>
    if t.id = id then (some (f t), f t :: ts)
    else
      let r := updateById id f ts
      (r.1, t :: r.2)

/-- `PUT /api/transactions/:id/status`: reject a status outside the
enumeration with 400 before any lookup; 404 when no document matches;
otherwise answer with the updated document. -/
def updateStatus (store : List Transaction) (id : String) (newStatus : String)
    (now : Nat) : UpdateStatusResult × List Transaction :=
  if validStatuses.contains newStatus then
    match updateById id (applyStatusUpdate newStatus now) store with
    | (none, _) => (.notFound, store)
    | (some t, store2) => (.ok t, store2)
  else
    (.badRequest, store)

/-- `findByIdAndDelete`: remove the first document with the given id,
returning its prior state. -/
def deleteById (id : String) :
    List Transaction → Option Transaction × List Transaction
  | [] => (none, [])
  | t :: ts =>
    if t.id = id then (some t, ts)
    else
      let r := deleteById id ts
      (r.1, t :: r.2)

/-- `.sort({ createdAt: -1 })`: order by creation time, most recent first. -/
def sortByCreatedAtDesc (l : List Transaction) : List Transaction :=
  List.insertionSort (fun a b => b.createdAt ≤ a.createdAt) l

/-- `GET /api/transactions`: `Transaction.find().sort({ createdAt: -1 })`. -/
def listAllTransactions (store : List Transaction) : List Transaction :=
  sortByCreatedAtDesc store

/-- `GET /api/transactions/:userId`. -/
def listByUser (store : List Transaction) (userId : String) : List Transaction :=
  sortByCreatedAtDesc (store.filter (fun t => t.userInfo.id = userId))

/-! ## The `$regex` search (`GET /api/transactions/search/:query`)

The handler passes the raw path parameter to MongoDB as
`{ $regex: query, $options: 'i' }` on email/username/phone: the query is a
case-insensitive, unanchored *regular-expression pattern*, not a literal
substring.  The engine below models the PCRE fragment this development
reasons about: patterns made of literal characters and the `.` metacharacter
(case-insensitivity via ASCII `Char.toLower`, PCRE dot not matching a
newline).  All theorems either restrict patterns to this fragment or use
only patterns inside it. -/

/-- PCRE `.` (no `s` flag): any character except newline. -/
def pcreDot (c : Char) : Bool := !(c = Char.ofNat 10)

inductive RTok where
  | lit (c : Char)
  | dot
deriving DecidableEq, Repr

/-- Pattern lexer for the modelled fragment: `.` is the any-character
metacharacter, every other character is a literal. -/
def lexRegex : List Char → List RTok
  | [] => []
  | c :: rest => (if c = '.' then RTok.dot else RTok.lit c) :: lexRegex rest

/-- One token against one subject character (case-insensitive option). -/
def rtokMatch (t : RTok) (c : Char) : Bool :=
  match t with
  | .lit a => a.toLower == c.toLower
  | .dot => pcreDot c

/-- Anchored match of a token list at the head of the subject. -/
def rmatchHere : List RTok → List Char → Bool
  | [], _ => true
  | _ :: _, [] => false
  | t :: ts, c :: cs => rtokMatch t c && rmatchHere ts cs

/-- Unanchored search: try every start position, leftmost first. -/
def rsearch (ts : List RTok) : List Char → Bool
  | [] => rmatchHere ts []
  | c :: rest => rmatchHere ts (c :: rest) || rsearch ts rest

/-- `field: { $regex: pat, $options: 'i' }` on one string field. -/
def regexTestCI (pat s : String) : Bool :=
  rsearch (lexRegex pat.data) s.data

/-- The `$or` filter of the search handler. -/
def mongoSearchMatch (q : String) (t : Transaction) : Bool :=
  regexTestCI q t.userInfo.email || regexTestCI q t.userInfo.username ||
    regexTestCI q t.userInfo.phone

/-- `GET /api/transactions/search/:query`. -/
def searchTransactions (store : List Transaction) (q : String) : List Transaction :=
  sortByCreatedAtDesc (store.filter (fun t => mongoSearchMatch q t))

/-! ## Spec-side definitions (written from the spec's words, for comparison)

The spec describes Search as *case-insensitive substring containment*
(unanchored) over email/username/phone, and UpdateStatus as checking the
five-value status enumeration. -/

/-- Spec words: case-insensitive prefix agreement. -/
def ciPfx : List Char → List Char → Bool
  | [], _ => true
  | _ :: _, [] => false
  | a :: as, b :: bs => (a.toLower == b.toLower) && ciPfx as bs

/-- Spec words: `q` occurs case-insensitively as an (unanchored) substring. -/
def specContainsCI (q : List Char) : List Char → Bool
  | [] => ciPfx q []
  | c :: rest => ciPfx q (c :: rest) || specContainsCI q rest

/-- Spec words: the search predicate of §4.1 (substring, not regex). -/
def specSearchMatch (q : String) (t : Transaction) : Bool :=
  specContainsCI q.data t.userInfo.email.data ||
    specContainsCI q.data t.userInfo.username.data ||
    specContainsCI q.data t.userInfo.phone.data

/-- Spec words: Search = filter by substring containment, newest first. -/
def specSearch (store : List Transaction) (q : String) : List Transaction :=
  sortByCreatedAtDesc (store.filter (fun t => specSearchMatch q t))

/-- Spec words: the five-value status enumeration of §3. -/
def isValidStatus (s : String) : Prop :=
  s = "pending" ∨ s = "processing" ∨ s = "approved" ∨ s = "rejected" ∨ s = "completed"

instance (s : String) : Decidable (isValidStatus s) := by
  unfold isValidStatus
  infer_instance

/-- PCRE metacharacters: a pattern free of these is matched literally. -/
def regexMeta : List Char :=
  ['\\', Char.ofNat 94, Char.ofNat 36, '.', Char.ofNat 124, Char.ofNat 63,
   Char.ofNat 42, Char.ofNat 43, Char.ofNat 40, Char.ofNat 41,
   Char.ofNat 91, Char.ofNat 93, Char.ofNat 123, Char.ofNat 125]

def plainChar (c : Char) : Bool := !(regexMeta.contains c)

/-! ## User deletion orchestrator (`routes/userRoutes.js`)

`DELETE /api/users/:id`: first `clerkClient.users.deleteUser(id)` (external;
modelled by its success bit); on failure answer 500 immediately without
touching the store; on success `Transaction.deleteMany({'userInfo.id': id})`. -/

inductive DeleteUserResult where
  | ok
  | authFailed
deriving DecidableEq, Repr

def DeleteUserResult.statusCode : DeleteUserResult → Nat
  | .ok => 200
  | .authFailed => 500

def deleteUserRoute (store : List Transaction) (userId : String)
    (clerkOk : Bool) : DeleteUserResult × List Transaction :=
  if clerkOk then
    (.ok, store.filter (fun t => !(t.userInfo.id = userId)))
  else
    (.authFailed, store)

/-! ## Post-creation operation sequences (for the frame property)

Every store-mutating route, as a step relation on the store. -/

inductive TxOp where
  | create (p : CreatePayload) (newId : String) (now : Nat)
  | setStatus (id : String) (newStatus : String) (now : Nat)
  | deleteOne (id : String)
  | deleteUser (userId : String) (clerkOk : Bool)

def applyOp (store : List Transaction) : TxOp → List Transaction
  | .create p newId now => (createTransaction store p newId now).2
  | .setStatus id s now => (updateStatus store id s now).2
  | .deleteOne id => (deleteById id store).2
  | .deleteUser uid ok => (deleteUserRoute store uid ok).2

def applyOps (store : List Transaction) (ops : List TxOp) : List Transaction :=
  ops.foldl applyOp store

/-- Equality of everything except `status` and `updatedAt`: identity,
userInfo, the monetary fields, payment reference, image and creation time. -/
def frameEq (a b : Transaction) : Prop :=
  a.id = b.id ∧ a.userInfo = b.userInfo ∧ a.upiId = b.upiId ∧
  a.piAmount = b.piAmount ∧ a.usdValue = b.usdValue ∧ a.inrValue = b.inrValue ∧
  a.SellRateUsd = b.SellRateUsd ∧ a.SellRateInr = b.SellRateInr ∧
  a.imageUrl = b.imageUrl ∧ a.createdAt = b.createdAt

instance (a b : Transaction) : Decidable (frameEq a b) := by
  unfold frameEq
  infer_instance

/-! ## Media deletion proxy (`routes/cloudinaryRoutes.js`)

`extractCloudinaryInfo(url)` applies two JavaScript regexes:
* cloud name: `/cloudinary\.com\/([^\x2f]+)/` — at the leftmost position
  where the literal host marker followed by `/` matches, capture the maximal
  nonempty run of non-`/` characters;
* public id: the unanchored, end-anchored pattern matching `/upload/`, then
  any number of nonempty `/`-free segments each followed by `/` (greedy),
  then `v` + digits + `/`, then a lazy nonempty capture, then a final `.` and
  a nonempty dot-free extension running to the end of the string.

Both are implemented operationally below on `List Char`, making the JS
engine's leftmost-position preference and greedy/lazy backtracking order
explicit (`findCloudName`, `findUpload`/`starLoop`). -/

/-- JavaScript `.` (no `s` flag): any character except a line terminator. -/
def jsDot (c : Char) : Bool :=
  !(c = Char.ofNat 10 || c = Char.ofNat 13 || c = Char.ofNat 8232 || c = Char.ofNat 8233)

/-- Literal prefix match (Boolean). -/
def pfx : List Char → List Char → Bool
  | [], _ => true
  | _ :: _, [] => false
  | a :: as, b :: bs => (a == b) && pfx as bs

/-- Literal substring occurrence (`String.prototype.includes`). -/
def hasSub (pat : List Char) : List Char → Bool
  | [] => pfx pat []
  | c :: rest => pfx pat (c :: rest) || hasSub pat rest

/-- The tail `\.[^.]+$`: a literal dot, then a nonempty dot-free run to the
end of the subject. -/
def matchDotExt : List Char → Bool
  | [] => false
  | c :: e => c == '.' && !e.isEmpty && e.all (fun x => !(x = '.'))

/-- The lazy capture `(.+?)` followed by `\.[^.]+$`: consume one character
(which `.` must match), try the continuation, and only grow the capture on
failure.  Returns the captured characters. -/
def lazyCap (acc : List Char) : List Char → Option (List Char)
  | [] => none
  | c :: rest =>
    if jsDot c then
      if matchDotExt rest then some (acc ++ [c])
      else lazyCap (acc ++ [c]) rest
    else none

/-- `v\d+\/`: a literal `v`, a maximal nonempty digit run, then `/`;
returns the remainder after the slash. -/
def matchVer (cs : List Char) : Option (List Char) :=
  match cs with
  | [] => none
  | c :: rest =>
    if c = 'v' then
      if (rest.takeWhile Char.isDigit).isEmpty then none
      else
        match rest.dropWhile Char.isDigit with
        | [] => none
        | d :: r => if d = '/' then some r else none
    else none

/-- The pattern continuation once the star stops: `v\d+\/(.+?)\.[^.]+$`. -/
def contHere (cs : List Char) : Option (List Char) :=
  match matchVer cs with
  | none => none
  | some rest => lazyCap [] rest

/-- The greedy star `(?:[^\x2f]+\/)*` followed by `contHere`: consume one
more nonempty `/`-free segment plus its slash whenever possible, preferring
more iterations (greedy), falling back to the continuation at the current
position. -/
def starLoop (cs : List Char) : Option (List Char) :=
  match cs with
  | [] => contHere []
  | c :: rest =>
    if c = '/' then contHere (c :: rest)
    else
      match h : rest.dropWhile (fun x => !(x = '/')) with
      | [] => contHere (c :: rest)
      | _ :: rest2 =>
        match starLoop rest2 with
        | some cap => some cap
        | none => contHere (c :: rest)
termination_by cs.length
decreasing_by
  have hs : (List.dropWhile (fun x => !(x = '/')) rest).length ≤ rest.length :=
    (List.dropWhile_sublist _).length_le
  rw [h] at hs
  simp at hs
  simp
  omega

/-- `"/upload/"` as characters. -/
def upSep : List Char := ['/', 'u', 'p', 'l', 'o', 'a', 'd', '/']

/-- `"cloudinary.com"` (the `includes` marker) as characters. -/
def hostMarker : List Char :=
  ['c', 'l', 'o', 'u', 'd', 'i', 'n', 'a', 'r', 'y', '.', 'c', 'o', 'm']

/-- `"cloudinary.com/"` (the cloud-name pattern's literal part). -/
def cnSep : List Char := hostMarker ++ ['/']

/-- Leftmost-position search for the public-id pattern: at each position the
whole pattern must match (`/upload/` then `starLoop`); otherwise move one
character right. -/
def findUpload : List Char → Option (List Char)
  | [] => none
  | c :: rest =>
    if pfx upSep (c :: rest) then
      match starLoop ((c :: rest).drop upSep.length) with
      | some cap => some cap
      | none => findUpload rest
    else findUpload rest

/-- Leftmost-position search for the cloud-name pattern: the literal
`cloudinary.com/` then a maximal nonempty `/`-free capture. -/
def findCloudName : List Char → Option (List Char)
  | [] => none
  | c :: rest =>
    if pfx cnSep (c :: rest) then
      if (((c :: rest).drop cnSep.length).takeWhile (fun x => !(x = '/'))).isEmpty
      then findCloudName rest
      else some (((c :: rest).drop cnSep.length).takeWhile (fun x => !(x = '/')))
    else findCloudName rest

/-- The `{ public_id, cloud_name }` pair returned by `extractCloudinaryInfo`
(`none` models JavaScript `null`). -/
structure CloudinaryInfo where
  public_id : Option String
  cloud_name : Option String
deriving DecidableEq, Repr

/-- `extractCloudinaryInfo(url)`: falsy input returns nulls; a string
containing the host marker goes through the two regexes; any other string is
returned as the public id; a truthy non-string throws inside the `try` (no
`.includes` method) and the `catch` returns nulls. -/
def extractCloudinaryInfo : JSValue → CloudinaryInfo
  | .str s =>
    if s = "" then ⟨none, none⟩
    else if hasSub hostMarker s.data then
      ⟨(findUpload s.data).map (fun l => String.mk l),
       (findCloudName s.data).map (fun l => String.mk l)⟩
    else ⟨some s, none⟩
  | _ => ⟨none, none⟩

/-- The delete handler's identifier resolution:
`finalPublicId = public_id || extractedPublicId`, paired with the
URL-derived cloud name. -/
def resolveIdentifier (public_id imageUrl : JSValue) : JSValue × Option String :=
  let info := extractCloudinaryInfo imageUrl
  (jsOr public_id (optToJS info.public_id), info.cloud_name)

/-- The Cloudinary client configuration; a missing credential is the empty
string (the startup checks reject absent env vars, but values are trimmed,
so emptiness is the remaining falsy case of `!currentConfig.x`). -/
structure CloudinaryConfig where
  cloud_name : String
  api_key : String
  api_secret : String
deriving DecidableEq, Repr

inductive DeleteImageResult where
  /-- 400 `Valid public_id or imageUrl is required`. -/
  | missingId
  /-- 500 `Cloudinary configuration error`. -/
  | configError
  /-- 400 `Cloud name mismatch between URL and configuration`. -/
  | nameMismatch
  /-- 200, provider answered `ok`. -/
  | deleted
  /-- 404, provider answered `not found`. -/
  | notFound
  /-- 400 `Failed to delete image`, any other provider answer. -/
  | failed
deriving DecidableEq, Repr

def DeleteImageResult.statusCode : DeleteImageResult → Nat
  | .missingId => 400
  | .configError => 500
  | .nameMismatch => 400
  | .deleted => 200
  | .notFound => 404
  | .failed => 400

/-- `POST /api/cloudinary/delete`.  `providerResult` models the `result`
field of the external `cloudinary.uploader.destroy` response; the returned
`Bool` records whether that external call was issued. -/
def deleteImageRoute (cfg : CloudinaryConfig) (public_id imageUrl : JSValue)
    (providerResult : String) : DeleteImageResult × Bool :=
  let info := extractCloudinaryInfo imageUrl
  let finalPublicId := jsOr public_id (optToJS info.public_id)
  if !(truthy finalPublicId) then (.missingId, false)
  else if cfg.cloud_name = "" || cfg.api_key = "" || cfg.api_secret = "" then
    (.configError, false)
  else
    let mismatch :=
      match info.cloud_name with
      | some cn => !(cn = "") && !(cn = cfg.cloud_name)
      | none => false
    if mismatch then (.nameMismatch, false)
    else if providerResult = "ok" then (.deleted, true)
    else if providerResult = "not found" then (.notFound, true)
    else (.failed, true)

/-! ## Shape combinators for the URL theorem

`ledJoin [s₀, …, sₖ] tail` is `s₀/s₁/…/sₖ/tail`; `sepJoin [s₀, …, sₖ]` is
`/s₀/s₁/…/sₖ`; `vPart` is the `v<digits>/<folder>/<name>.<ext>` tail. -/

def ledJoin (segs : List (List Char)) (tail : List Char) : List Char :=
  segs.foldr (fun m acc => m ++ '/' :: acc) tail

def sepJoin (segs : List (List Char)) : List Char :=
  segs.foldr (fun m acc => '/' :: (m ++ acc)) []

def vPart (d folder name ext : List Char) : List Char :=
  'v' :: d ++ '/' :: (folder ++ '/' :: (name ++ '.' :: ext))

/-- A segment of the exact shape `v<digits>` (what `v\d+\/` accepts as a
whole path segment). -/
def isVNum (l : List Char) : Bool :=
  match l with
  | [] => false
  | c :: d => c == 'v' && !d.isEmpty && d.all Char.isDigit

/-- `"upload"` as characters. -/
def uploadSeg : List Char := ['u', 'p', 'l', 'o', 'a', 'd']

/-- `"https://res.cloudinary.com"` as characters. -/
def httpsBase : List Char :=
  ['h', 't', 't', 'p', 's', ':', '/', '/', 'r', 'e', 's', '.'] ++ hostMarker

/-! ## Concrete fixtures (used by witnesses and counterexamples) -/

def sampleTx : Transaction :=
  { id := "a1", status := "pending"
    userInfo := ⟨"u1", "alice", "a@x.io", "99"⟩
    upiId := "a@upi", piAmount := 3, usdValue := "1.2", inrValue := "100"
    SellRateUsd := "0.4", SellRateInr := "33", imageUrl := "http://i"
    createdAt := 1, updatedAt := 1 }

def samplePayload : CreatePayload :=
  { piAmount := some 5, usdValue := some "2.0", inrValue := some "170"
    upiId := some "b@upi", imageUrl := some "http://img"
    userInfo := some ⟨"u2", "bob", "b@x.io", "88"⟩
    SellRateUsd := some "0.4", SellRateInr := some "34"
    status := some "approved" }

def sampleCfg : CloudinaryConfig :=
  { cloud_name := "mycloud", api_key := "k", api_secret := "s" }

/-- A record none of whose searchable fields contains a literal dot. -/
def dotlessTx : Transaction :=
  { id := "b1", status := "pending"
    userInfo := ⟨"u3", "carol", "carol@example-com", "5551234"⟩
    upiId := "c@upi", piAmount := 2, usdValue := "0.8", inrValue := "66"
    SellRateUsd := "0.4", SellRateInr := "33", imageUrl := "http://j"
    createdAt := 2, updatedAt := 2 }

instance : IsTotal Transaction (fun a b => b.createdAt ≤ a.createdAt) :=
  ⟨fun a b => le_total b.createdAt a.createdAt⟩

instance : IsTrans Transaction (fun a b => b.createdAt ≤ a.createdAt) :=
  ⟨fun _ _ _ h1 h2 => le_trans h2 h1⟩

/-! # Theorems -/

/-! ## Status-update lemmas -/

theorem contains_validStatuses (s : String) :
    validStatuses.contains s = true ↔ isValidStatus s := by
  simp [validStatuses, isValidStatus, List.contains_iff_exists_mem_beq]
  tauto

theorem updateById_of_not_mem (id : String) (f : Transaction → Transaction) :
    ∀ store : List Transaction, (∀ t ∈ store, ¬ t.id = id) →
      updateById id f store = (none, store) := by
  intro store
  induction store with
  | nil => intro _; rfl
  | cons u us ih =>
    intro h
    have hu : ¬ u.id = id := h u (List.mem_cons_self u us)
    simp only [updateById, if_neg hu]
    rw [ih (fun t ht => h t (List.mem_cons_of_mem u ht))]

theorem updateById_of_mem (id : String) (f : Transaction → Transaction) :
    ∀ (store : List Transaction) (t : Transaction), t ∈ store → t.id = id →
      (store.map Transaction.id).Nodup →
      (updateById id f store).1 = some (f t) ∧ f t ∈ (updateById id f store).2 := by
  intro store
  induction store with
  | nil => intro t ht; exact absurd ht (List.not_mem_nil t)
  | cons u us ih =>
    intro t ht hid hnd
    rw [List.map_cons, List.nodup_cons] at hnd
    rcases List.mem_cons.mp ht with rfl | hts
    · simp only [updateById, if_pos hid]
      exact ⟨by trivial, List.mem_cons_self _ _⟩
    · have hu : ¬ u.id = id := by
        intro he
        exact hnd.1 (he ▸ hid ▸ List.mem_map_of_mem Transaction.id hts)
      simp only [updateById, if_neg hu]
      rcases ih t hts hid hnd.2 with ⟨h1, h2⟩
      exact ⟨h1, List.mem_cons_of_mem u h2⟩

/-- Claim C1: UpdateStatus rejects a status outside the five enumerated
values with 400 (store untouched, for all input strings); a valid status
with no matching record answers 404 (store untouched); a valid status with a
matching record answers 200 with the record whose `status` is the supplied
value and whose `updatedAt` is refreshed, and that record is stored. -/
theorem updateStatus_spec (store : List Transaction) (id ns : String) (now : Nat) :
    (¬ isValidStatus ns →
      updateStatus store id ns now = (.badRequest, store) ∧
      UpdateStatusResult.badRequest.statusCode = 400) ∧
    (isValidStatus ns → (∀ t ∈ store, ¬ t.id = id) →
      updateStatus store id ns now = (.notFound, store) ∧
      UpdateStatusResult.notFound.statusCode = 404) ∧
    (isValidStatus ns → ∀ t ∈ store, t.id = id → (store.map Transaction.id).Nodup →
      (updateStatus store id ns now).1 =
        .ok { t with status := ns, updatedAt := now } ∧
      { t with status := ns, updatedAt := now } ∈ (updateStatus store id ns now).2) := by
  refine ⟨?_, ?_, ?_⟩
  · intro h
    have hc : ¬ validStatuses.contains ns = true :=
      fun hc => h ((contains_validStatuses ns).mp hc)
    unfold updateStatus
    rw [if_neg hc]
    exact ⟨rfl, rfl⟩
  · intro h hnone
    have hc : validStatuses.contains ns = true := (contains_validStatuses ns).mpr h
    unfold updateStatus
    rw [if_pos hc, updateById_of_not_mem id _ store hnone]
    exact ⟨rfl, rfl⟩
  · intro h t ht hid hnd
    have hc : validStatuses.contains ns = true := (contains_validStatuses ns).mpr h
    rcases updateById_of_mem id (applyStatusUpdate ns now) store t ht hid hnd with ⟨h1, h2⟩
    unfold updateStatus
    rw [if_pos hc]
    rcases hr : updateById id (applyStatusUpdate ns now) store with ⟨r1, r2⟩
    rw [hr] at h1 h2
    simp only at h1 h2
    subst h1
    exact ⟨rfl, h2⟩

/-- Witness for C1 at a concrete store, id, status and clock. -/
theorem updateStatus_spec_witness :
    isValidStatus "approved" ∧ sampleTx ∈ [sampleTx] ∧ sampleTx.id = "a1" ∧
    ([sampleTx].map Transaction.id).Nodup ∧
    (updateStatus [sampleTx] "a1" "approved" 7).1 =
      .ok { sampleTx with status := "approved", updatedAt := 7 } :=
  ⟨by decide, by decide, by decide, by decide,
    ((updateStatus_spec [sampleTx] "a1" "approved" 7).2.2 (by decide) sampleTx
      (by decide) (by decide) (by decide)).1⟩

/-- Claim C10: the enumeration check precedes the lookup — an invalid status
answers 400 (never 404) even when no record with the id exists, and the
store is unchanged. -/
theorem updateStatus_invalid_before_lookup (store : List Transaction)
    (id ns : String) (now : Nat) (h : ¬ isValidStatus ns)
    (hnone : ∀ t ∈ store, ¬ t.id = id) :
    (updateStatus store id ns now).1 = .badRequest ∧
    (updateStatus store id ns now).1.statusCode = 400 ∧
    ¬ (updateStatus store id ns now).1 = .notFound ∧
    (updateStatus store id ns now).2 = store := by
  have hc : ¬ validStatuses.contains ns = true :=
    fun hc => h ((contains_validStatuses ns).mp hc)
  unfold updateStatus
  rw [if_neg hc]
  exact ⟨rfl, rfl, by simp, rfl⟩

/-- Witness for C10: an unknown status against an empty store answers 400. -/
theorem updateStatus_invalid_before_lookup_witness :
    ¬ isValidStatus "cancelled" ∧
    ((updateStatus [] "missing" "cancelled" 0).1 = .badRequest ∧
     (updateStatus [] "missing" "cancelled" 0).1.statusCode = 400 ∧
     ¬ (updateStatus [] "missing" "cancelled" 0).1 = .notFound ∧
     (updateStatus [] "missing" "cancelled" 0).2 = []) :=
  ⟨by decide,
    updateStatus_invalid_before_lookup [] "missing" "cancelled" 0 (by decide)
      (by intro t ht; exact absurd ht (List.not_mem_nil t))⟩

/-- Claim C5: when the Clerk deletion fails, the user-deletion route answers
500 immediately and the transaction store is exactly what it was — zero
records are removed. -/
theorem deleteUser_clerkFailure (store : List Transaction) (uid : String) :
    deleteUserRoute store uid false = (.authFailed, store) ∧
    DeleteUserResult.authFailed.statusCode = 500 :=
  ⟨rfl, rfl⟩

/-- Claim C8: every valid create payload is stored as a new record with
status `pending` (whatever `status` the payload carried), both timestamps
set to the save time, the generated id, and the submitted field values; the
handler answers with that stored record. -/
theorem createTransaction_spec (store : List Transaction) (p : CreatePayload)
    (newId : String) (now : Nat) (h : payloadValid p = true) :
    ∃ t, createTransaction store p newId now = (.created t, store ++ [t]) ∧
      t.status = "pending" ∧ t.createdAt = now ∧ t.updatedAt = now ∧
      t.id = newId ∧
      some t.userInfo = p.userInfo ∧ some t.upiId = p.upiId ∧
      some t.piAmount = p.piAmount ∧ some t.usdValue = p.usdValue ∧
      some t.inrValue = p.inrValue ∧ some t.SellRateUsd = p.SellRateUsd ∧
      some t.SellRateInr = p.SellRateInr ∧ some t.imageUrl = p.imageUrl := by
  refine ⟨mkTransaction p newId now, ?_, rfl, rfl, rfl, rfl, ?_⟩
  · simp only [createTransaction, if_pos h]
  · unfold payloadValid at h
    simp only [Bool.and_eq_true, Option.isSome_iff_exists] at h
    obtain ⟨⟨⟨⟨⟨⟨⟨⟨a, ha⟩, ⟨b, hb⟩⟩, ⟨c, hc⟩⟩, ⟨d, hd⟩⟩, ⟨e, he⟩⟩, ⟨f, hf⟩⟩, ⟨g, hg⟩⟩, ⟨k, hk⟩⟩ := h
    simp [mkTransaction, ha, hb, hc, hd, he, hf, hg, hk]

/-- Witness for C8 at a concrete payload (which even carries a `status`
value, ignored by the handler). -/
theorem createTransaction_spec_witness :
    payloadValid samplePayload = true ∧
    ∃ t, createTransaction [] samplePayload "id9" 3 = (.created t, [] ++ [t]) ∧
      t.status = "pending" ∧ t.createdAt = 3 ∧ t.updatedAt = 3 ∧
      t.id = "id9" ∧
      some t.userInfo = samplePayload.userInfo ∧
      some t.upiId = samplePayload.upiId ∧
      some t.piAmount = samplePayload.piAmount ∧
      some t.usdValue = samplePayload.usdValue ∧
      some t.inrValue = samplePayload.inrValue ∧
      some t.SellRateUsd = samplePayload.SellRateUsd ∧
      some t.SellRateInr = samplePayload.SellRateInr ∧
      some t.imageUrl = samplePayload.imageUrl :=
  ⟨by decide, createTransaction_spec [] samplePayload "id9" 3 (by decide)⟩

/-! ## Frame property -/

theorem frameEq_refl (a : Transaction) : frameEq a a := by
  unfold frameEq
  exact ⟨rfl, rfl, rfl, rfl, rfl, rfl, rfl, rfl, rfl, rfl⟩

theorem frameEq_trans {a b c : Transaction} (h1 : frameEq a b) (h2 : frameEq b c) :
    frameEq a c := by
  unfold frameEq at h1 h2 ⊢
  obtain ⟨e1, e2, e3, e4, e5, e6, e7, e8, e9, e10⟩ := h1
  obtain ⟨f1, f2, f3, f4, f5, f6, f7, f8, f9, f10⟩ := h2
  exact ⟨e1.trans f1, e2.trans f2, e3.trans f3, e4.trans f4, e5.trans f5,
    e6.trans f6, e7.trans f7, e8.trans f8, e9.trans f9, e10.trans f10⟩

/-- A status update only touches `status` and `updatedAt`. -/
theorem frameEq_applyStatusUpdate (ns : String) (now : Nat) (t : Transaction) :
    frameEq t (applyStatusUpdate ns now t) := by
  unfold frameEq applyStatusUpdate
  exact ⟨rfl, rfl, rfl, rfl, rfl, rfl, rfl, rfl, rfl, rfl⟩

theorem mem_updateById_snd (id : String) (f : Transaction → Transaction) :
    ∀ (store : List Transaction) (x : Transaction),
      x ∈ (updateById id f store).2 → x ∈ store ∨ ∃ t ∈ store, x = f t := by
  intro store
  induction store with
  | nil => intro x hx; exact absurd hx (List.not_mem_nil x)
  | cons u us ih =>
    intro x hx
    by_cases hu : u.id = id
    · simp only [updateById, if_pos hu] at hx
      rcases List.mem_cons.mp hx with rfl | hxs
      · exact Or.inr ⟨u, List.mem_cons_self u us, rfl⟩
      · exact Or.inl (List.mem_cons_of_mem u hxs)
    · simp only [updateById, if_neg hu] at hx
      rcases List.mem_cons.mp hx with rfl | hxs
      · exact Or.inl (List.mem_cons_self x us)
      · rcases ih x hxs with h | ⟨t, ht, he⟩
        · exact Or.inl (List.mem_cons_of_mem u h)
        · exact Or.inr ⟨t, List.mem_cons_of_mem u ht, he⟩

theorem mem_deleteById_snd (id : String) :
    ∀ (store : List Transaction) (x : Transaction),
      x ∈ (deleteById id store).2 → x ∈ store := by
  intro store
  induction store with
  | nil => intro x hx; exact absurd hx (List.not_mem_nil x)
  | cons u us ih =>
    intro x hx
    by_cases hu : u.id = id
    · simp only [deleteById, if_pos hu] at hx
      exact List.mem_cons_of_mem u hx
    · simp only [deleteById, if_neg hu] at hx
      rcases List.mem_cons.mp hx with rfl | hxs
      · exact List.mem_cons_self x us
      · exact List.mem_cons_of_mem u (ih x hxs)

/-- Each mutating route leaves every surviving record frame-equal to a
record of the previous store, except for records appended by a (valid)
create, which are the freshly built pending document. -/
theorem applyOp_frame (store : List Transaction) (op : TxOp) (x : Transaction)
    (hx : x ∈ applyOp store op) :
    (∃ t ∈ store, frameEq t x) ∨
    (∃ p newId now, op = .create p newId now ∧ payloadValid p = true ∧
      frameEq (mkTransaction p newId now) x) := by
  cases op with
  | create p newId now =>
    by_cases hv : payloadValid p = true
    · simp only [applyOp, createTransaction, if_pos hv] at hx
      rcases List.mem_append.mp hx with h | h
      · exact Or.inl ⟨x, h, frameEq_refl x⟩
      · rcases List.mem_singleton.mp h with rfl
        exact Or.inr ⟨p, newId, now, rfl, hv, frameEq_refl _⟩
    · simp only [applyOp, createTransaction, if_neg hv] at hx
      exact Or.inl ⟨x, hx, frameEq_refl x⟩
  | setStatus id ns now =>
    simp only [applyOp, updateStatus] at hx
    by_cases hc : validStatuses.contains ns = true
    · rw [if_pos hc] at hx
      rcases hr : updateById id (applyStatusUpdate ns now) store with ⟨r1, r2⟩
      rw [hr] at hx
      cases r1 with
      | none => exact Or.inl ⟨x, hx, frameEq_refl x⟩
      | some t =>
        have hx2 : x ∈ (updateById id (applyStatusUpdate ns now) store).2 := by
          rw [hr]; exact hx
        rcases mem_updateById_snd id _ store x hx2 with h | ⟨t2, ht2, he⟩
        · exact Or.inl ⟨x, h, frameEq_refl x⟩
        · exact Or.inl ⟨t2, ht2, he ▸ frameEq_applyStatusUpdate ns now t2⟩
    · rw [if_neg hc] at hx
      exact Or.inl ⟨x, hx, frameEq_refl x⟩
  | deleteOne id =>
    exact Or.inl ⟨x, mem_deleteById_snd id store x hx, frameEq_refl x⟩
  | deleteUser uid ok =>
    cases ok with
    | false => exact Or.inl ⟨x, hx, frameEq_refl x⟩
    | true =>
      simp only [applyOp, deleteUserRoute, if_pos rfl] at hx
      exact Or.inl ⟨x, List.mem_of_mem_filter hx, frameEq_refl x⟩

/-- Claim C9: after any sequence of post-creation operations, every record
still in the store is frame-equal (same id, userInfo, monetary fields,
upiId, imageUrl, createdAt — everything but `status`/`updatedAt`) either to
a record of the initial store or to the pending document built by one of the
sequence's create operations. -/
theorem applyOps_frame (ops : List TxOp) :
    ∀ (store : List Transaction) (x : Transaction), x ∈ applyOps store ops →
      (∃ t ∈ store, frameEq t x) ∨
      (∃ p newId now, TxOp.create p newId now ∈ ops ∧ payloadValid p = true ∧
        frameEq (mkTransaction p newId now) x) := by
  induction ops with
  | nil => intro store x hx; exact Or.inl ⟨x, hx, frameEq_refl x⟩
  | cons op ops ih =>
    intro store x hx
    have hx2 : x ∈ applyOps (applyOp store op) ops := hx
    rcases ih (applyOp store op) x hx2 with ⟨t2, ht2, he2⟩ | ⟨p, i, n, hin, hv, he⟩
    · rcases applyOp_frame store op t2 ht2 with ⟨t, ht, he⟩ | ⟨p, i, n, rfl, hv, he⟩
      · exact Or.inl ⟨t, ht, frameEq_trans he he2⟩
      · exact Or.inr ⟨p, i, n, List.mem_cons_self _ _, hv, frameEq_trans he he2⟩
    · exact Or.inr ⟨p, i, n, List.mem_cons_of_mem op hin, hv, he⟩

/-- Witness for C9: one concrete record surviving a status update and an
unrelated delete keeps all frame fields. -/
theorem applyOps_frame_witness :
    { sampleTx with status := "approved", updatedAt := 9 } ∈
      applyOps [sampleTx] [.setStatus "a1" "approved" 9, .deleteOne "zz"] ∧
    ((∃ t ∈ [sampleTx], frameEq t { sampleTx with status := "approved", updatedAt := 9 }) ∨
      (∃ p newId now,
        TxOp.create p newId now ∈
          [TxOp.setStatus "a1" "approved" 9, TxOp.deleteOne "zz"] ∧
        payloadValid p = true ∧
        frameEq (mkTransaction p newId now)
          { sampleTx with status := "approved", updatedAt := 9 })) :=
  ⟨by decide,
    applyOps_frame [.setStatus "a1" "approved" 9, .deleteOne "zz"] [sampleTx] _
      (by decide)⟩

/-! ## Search -/

theorem lexRegex_plain : ∀ q : List Char, q.all plainChar = true →
    lexRegex q = q.map RTok.lit := by
  intro q
  induction q with
  | nil => intro _; rfl
  | cons c rest ih =>
    intro h
    rw [List.all_cons, Bool.and_eq_true] at h
    have hc : ¬ c = '.' := by
      intro he
      subst he
      exact absurd h.1 (by decide)
    simp only [lexRegex, if_neg hc, List.map_cons, ih h.2]

theorem rmatchHere_map_lit : ∀ q s : List Char,
    rmatchHere (q.map RTok.lit) s = ciPfx q s := by
  intro q
  induction q with
  | nil => intro s; rfl
  | cons a as ih =>
    intro s
    cases s with
    | nil => rfl
    | cons b bs =>
      simp only [List.map_cons, rmatchHere, rtokMatch, ciPfx, ih bs]

theorem rsearch_map_lit (q : List Char) : ∀ s : List Char,
    rsearch (q.map RTok.lit) s = specContainsCI q s := by
  intro s
  induction s with
  | nil => simp only [rsearch, specContainsCI, rmatchHere_map_lit]
  | cons c rest ih =>
    simp only [rsearch, specContainsCI, rmatchHere_map_lit, ih]

theorem rsearch_nil_pat : ∀ s : List Char, rsearch [] s = true := by
  intro s
  cases s with
  | nil => rfl
  | cons c rest => rfl

theorem mongoSearchMatch_empty (t : Transaction) : mongoSearchMatch "" t = true := by
  unfold mongoSearchMatch regexTestCI
  rw [show ("" : String).data = [] from rfl]
  rw [show lexRegex [] = [] from rfl]
  rw [rsearch_nil_pat]
  rfl

theorem mongoSearchMatch_plain (q : String) (h : q.data.all plainChar = true)
    (t : Transaction) : mongoSearchMatch q t = specSearchMatch q t := by
  unfold mongoSearchMatch specSearchMatch regexTestCI
  rw [lexRegex_plain q.data h, rsearch_map_lit, rsearch_map_lit, rsearch_map_lit]

/-- Claim C2 (amended): for every query free of regex metacharacters, Search
returns exactly the records whose email, username or phone case-insensitively
contains the query as an unanchored substring; the result is always ordered
by `createdAt` descending; and the empty query returns all records, the same
result as ListAll.  (In general the code hands the query to `$regex`, so a
query is a pattern, not a literal — see the counterexample.) -/
theorem searchTransactions_spec (store : List Transaction) (q : String) :
    (q.data.all plainChar = true →
      searchTransactions store q = specSearch store q) ∧
    List.Sorted (fun a b => b.createdAt ≤ a.createdAt)
      (searchTransactions store q) ∧
    searchTransactions store "" = listAllTransactions store := by
  refine ⟨?_, ?_, ?_⟩
  · intro hp
    unfold searchTransactions specSearch
    congr 1
    exact List.filter_congr (fun t _ => mongoSearchMatch_plain q hp t)
  · unfold searchTransactions sortByCreatedAtDesc
    exact List.sorted_insertionSort _ _
  · unfold searchTransactions listAllTransactions sortByCreatedAtDesc
    congr 1
    exact List.filter_eq_self.mpr (fun t _ => mongoSearchMatch_empty t)

/-- Witness for C2 at a metacharacter-free query (matched case-insensitively
against the username `carol`). -/
theorem searchTransactions_spec_witness :
    ("CAROL".data.all plainChar = true) ∧
    searchTransactions [dotlessTx] "CAROL" = specSearch [dotlessTx] "CAROL" :=
  ⟨by decide, (searchTransactions_spec [dotlessTx] "CAROL").1 (by decide)⟩

/-- Counterexample to C2 as stated: the query is passed to `$regex` as a
pattern, so the query `.` matches a record none of whose fields contains a
literal dot — Search does not implement substring containment for every
query string. -/
theorem searchTransactions_counterexample :
    searchTransactions [dotlessTx] "." = [dotlessTx] ∧
    specSearchMatch "." dotlessTx = false ∧
    specSearch [dotlessTx] "." = [] := by
  refine ⟨by decide, by decide, by decide⟩

/-! ## Media deletion proxy: result mapping and account guard -/

/-- A derived cloud name is never the empty string. -/
theorem findCloudName_ne_nil :
    ∀ cs seg, findCloudName cs = some seg → ¬ seg = [] := by
  intro cs
  induction cs with
  | nil => intro seg h; exact absurd h (by simp [findCloudName])
  | cons c rest ih =>
    intro seg h
    by_cases hp : pfx cnSep (c :: rest) = true
    · simp only [findCloudName, if_pos hp] at h
      by_cases he :
          (((c :: rest).drop cnSep.length).takeWhile (fun x => !(x = '/'))).isEmpty = true
      · rw [if_pos he] at h
        exact ih seg h
      · rw [if_neg he] at h
        intro hnil
        rw [Option.some_inj.mp h, hnil] at he
        exact he rfl
    · simp only [findCloudName, if_neg hp] at h
      exact ih seg h

theorem extract_cloud_name_ne_empty (v : JSValue) (cn : String)
    (h : (extractCloudinaryInfo v).cloud_name = some cn) : ¬ cn = "" := by
  cases v with
  | str s =>
    by_cases hs : s = ""
    · rw [extractCloudinaryInfo, if_pos hs] at h
      exact absurd h (by simp)
    · rw [extractCloudinaryInfo, if_neg hs] at h
      by_cases hm : hasSub hostMarker s.data = true
      · rw [if_pos hm] at h
        simp only at h
        rcases Option.map_eq_some'.mp h with ⟨l, hl, rfl⟩
        have := findCloudName_ne_nil s.data l hl
        intro he
        apply this
        have : (String.mk l).data = ("" : String).data := by rw [he]
        simpa using this
      · rw [if_neg hm] at h
        simp only at h
        exact absurd h (by simp)
  | undefined => exact absurd h (by simp [extractCloudinaryInfo])
  | null => exact absurd h (by simp [extractCloudinaryInfo])
  | num n => exact absurd h (by simp [extractCloudinaryInfo])
  | bool b => exact absurd h (by simp [extractCloudinaryInfo])

/-! ## URL-parsing lemmas: prefix matching and segment arithmetic -/

theorem pfx_self_append : ∀ p A : List Char, pfx p (p ++ A) = true := by
  intro p A
  induction p with
  | nil => rfl
  | cons c rest ih => simp [pfx, ih]

theorem pfx_head_ne (a b : Char) (l r : List Char) (h : ¬ a = b) :
    pfx (a :: l) (b :: r) = false := by
  simp [pfx, h]

theorem pfx_cons_same (a : Char) (l r : List Char) :
    pfx (a :: l) (a :: r) = pfx l r := by
  simp [pfx]

theorem hasSub_of_pfx (pat y : List Char) (h : pfx pat y = true) :
    hasSub pat y = true := by
  cases y with
  | nil => exact h
  | cons c rest => simp [hasSub, h]

theorem hasSub_append_right (pat : List Char) :
    ∀ x y : List Char, hasSub pat y = true → hasSub pat (x ++ y) = true := by
  intro x
  induction x with
  | nil => intro y h; exact h
  | cons c rest ih =>
    intro y h
    have h2 := ih y h
    simp [hasSub, h2]

theorem takeWhile_append_all (p : Char → Bool) :
    ∀ l1 l2 : List Char, l1.all p = true →
      (l1 ++ l2).takeWhile p = l1 ++ l2.takeWhile p := by
  intro l1
  induction l1 with
  | nil => intro l2 _; rfl
  | cons c rest ih =>
    intro l2 h
    rw [List.all_cons, Bool.and_eq_true] at h
    simp [List.takeWhile_cons, h.1, ih l2 h.2]

theorem dropWhile_append_all (p : Char → Bool) :
    ∀ l1 l2 : List Char, l1.all p = true →
      (l1 ++ l2).dropWhile p = l2.dropWhile p := by
  intro l1
  induction l1 with
  | nil => intro l2 _; rfl
  | cons c rest ih =>
    intro l2 h
    rw [List.all_cons, Bool.and_eq_true] at h
    simp [List.dropWhile_cons, h.1, ih l2 h.2]

theorem dropWhile_append_not_all (p : Char → Bool) :
    ∀ l1 l2 : List Char, ¬ l1.all p = true →
      (l1 ++ l2).dropWhile p = l1.dropWhile p ++ l2 := by
  intro l1
  induction l1 with
  | nil => intro l2 h; exact absurd rfl h
  | cons c rest ih =>
    intro l2 h
    rw [List.all_cons] at h
    by_cases hc : p c = true
    · have hrest : ¬ rest.all p = true := by
        intro hr
        exact h (by simp [hc, hr])
      simp [List.dropWhile_cons, hc, ih l2 hrest]
    · have hc2 : p c = false := Bool.eq_false_iff.mpr hc
      simp [List.dropWhile_cons, hc2]

theorem dropWhile_ne_nil_of_not_all (p : Char → Bool) :
    ∀ l : List Char, ¬ l.all p = true → ¬ l.dropWhile p = [] := by
  intro l
  induction l with
  | nil => intro h; exact absurd rfl h
  | cons c rest ih =>
    intro h
    rw [List.all_cons] at h
    by_cases hc : p c = true
    · have hrest : ¬ rest.all p = true := by
        intro hr
        exact h (by simp [hc, hr])
      simpa [List.dropWhile_cons, hc] using ih hrest
    · have hc2 : p c = false := Bool.eq_false_iff.mpr hc
      simp [List.dropWhile_cons, hc2]

theorem mem_of_dropWhile_cons (p : Char → Bool) :
    ∀ (l : List Char) (d : Char) (r : List Char),
      l.dropWhile p = d :: r → d ∈ l := by
  intro l
  induction l with
  | nil => intro d r h; cases h
  | cons c rest ih =>
    intro d r h
    by_cases hc : p c = true
    · rw [List.dropWhile_cons, if_pos hc] at h
      exact List.mem_cons_of_mem c (ih d r h)
    · rw [List.dropWhile_cons, if_neg hc] at h
      rw [(List.cons.injEq ..).mp h |>.1]
      exact List.mem_cons_self d rest

theorem all_append_dot_cons (xs ys : List Char) :
    (xs ++ '.' :: ys).all (fun c => !(c = '.')) = false := by
  induction xs with
  | nil => simp
  | cons c rest ih => simp [ih]

/-- If a `/`-free pattern block followed by `/` matches a `/`-free segment
followed by `/`, the block and the segment coincide. -/
theorem pfx_slash_seg :
    ∀ (w acc : List Char) (t rest : List Char),
      w.all (fun c => !(c = '/')) = true → acc.all (fun c => !(c = '/')) = true →
      pfx (w ++ '/' :: t) (acc ++ '/' :: rest) = true → w = acc := by
  intro w
  induction w with
  | nil =>
    intro acc t rest _ hacc hp
    cases acc with
    | nil => rfl
    | cons a acc2 =>
      rw [List.all_cons, Bool.and_eq_true] at hacc
      simp only [List.nil_append, List.cons_append, pfx, Bool.and_eq_true,
        beq_iff_eq] at hp
      exact absurd hp.1.symm (by simpa using hacc.1)
  | cons x w2 ih =>
    intro acc t rest hw hacc hp
    rw [List.all_cons, Bool.and_eq_true] at hw
    cases acc with
    | nil =>
      simp only [List.cons_append, List.nil_append, pfx, Bool.and_eq_true,
        beq_iff_eq] at hp
      exact absurd hp.1 (by simpa using hw.1)
    | cons a acc2 =>
      rw [List.all_cons, Bool.and_eq_true] at hacc
      simp only [List.cons_append, pfx, Bool.and_eq_true, beq_iff_eq] at hp
      rw [hp.1, ih acc2 t rest hw.2 hacc.2 hp.2]

/-! ## Tail-pattern lemmas: `v\d+\/(.+?)\.[^.]+$` -/

theorem matchDotExt_cons (c : Char) (e : List Char) :
    matchDotExt (c :: e) =
      ((c == '.') && !e.isEmpty && e.all (fun x => !(x = '.'))) := rfl

theorem lazyCap_cons (acc : List Char) (c : Char) (rest : List Char) :
    lazyCap acc (c :: rest) =
      (if jsDot c then
        if matchDotExt rest then some (acc ++ [c])
        else lazyCap (acc ++ [c]) rest
      else none) := rfl

theorem lazyCap_spec :
    ∀ (M : List Char), ¬ M = [] → M.all jsDot = true →
      ∀ (acc E : List Char), ¬ E = [] → E.all (fun c => !(c = '.')) = true →
        lazyCap acc (M ++ '.' :: E) = some (acc ++ M) := by
  intro M
  induction M with
  | nil => intro h; exact absurd rfl h
  | cons m M2 ih =>
    intro _ hall acc E hE hEd
    rw [List.all_cons, Bool.and_eq_true] at hall
    cases M2 with
    | nil =>
      have hext : matchDotExt ('.' :: E) = true := by
        rw [matchDotExt_cons]
        have : E.isEmpty = false := by
          cases E with
          | nil => exact absurd rfl hE
          | cons a b => rfl
        simp [this, hEd]
      show lazyCap acc (m :: '.' :: E) = some (acc ++ [m])
      rw [lazyCap_cons, if_pos hall.1, if_pos hext]
    | cons m2 M3 =>
      have hstep : matchDotExt (m2 :: (M3 ++ '.' :: E)) = false := by
        rw [matchDotExt_cons, all_append_dot_cons M3 E]
        simp
      show lazyCap acc (m :: (m2 :: (M3 ++ '.' :: E))) =
        some (acc ++ m :: m2 :: M3)
      rw [lazyCap_cons, if_pos hall.1, if_neg (by simp [hstep])]
      show lazyCap (acc ++ [m]) ((m2 :: M3) ++ '.' :: E) =
        some (acc ++ m :: m2 :: M3)
      rw [ih (by simp) hall.2 (acc ++ [m]) E hE hEd]
      simp

theorem matchVer_cons (c : Char) (rest : List Char) :
    matchVer (c :: rest) =
      (if c = 'v' then
        if (rest.takeWhile Char.isDigit).isEmpty then none
        else
          match rest.dropWhile Char.isDigit with
          | [] => none
          | d :: r => if d = '/' then some r else none
      else none) := rfl

theorem matchVer_spec (D R : List Char) (hD : ¬ D = [])
    (hDd : D.all Char.isDigit = true) :
    matchVer ('v' :: D ++ '/' :: R) = some R := by
  rw [show ('v' :: D ++ '/' :: R) = 'v' :: (D ++ '/' :: R) from rfl, matchVer_cons]
  rw [if_pos rfl]
  have htw : (D ++ '/' :: R).takeWhile Char.isDigit = D := by
    rw [takeWhile_append_all Char.isDigit D _ hDd]
    simp [List.takeWhile_cons]
  have hdw : (D ++ '/' :: R).dropWhile Char.isDigit = '/' :: R := by
    rw [dropWhile_append_all Char.isDigit D _ hDd]
    simp [List.dropWhile_cons]
  rw [htw, hdw]
  have : D.isEmpty = false := by
    cases D with
    | nil => exact absurd rfl hD
    | cons a b => rfl
  rw [if_neg (by rw [this]; exact Bool.false_ne_true)]
  simp

theorem matchVer_no_slash (cs : List Char)
    (h : cs.all (fun c => !(c = '/')) = true) : matchVer cs = none := by
  cases cs with
  | nil => rfl
  | cons c rest =>
    rw [List.all_cons, Bool.and_eq_true] at h
    rw [matchVer_cons]
    by_cases hv : c = 'v'
    · rw [if_pos hv]
      by_cases he : ((rest.takeWhile Char.isDigit).isEmpty : Bool) = true
      · rw [if_pos he]
      · rw [if_neg he]
        rcases hd : rest.dropWhile Char.isDigit with _ | ⟨d, r⟩
        · rfl
        · have hdm : d ∈ rest := mem_of_dropWhile_cons Char.isDigit rest d r hd
          have : ¬ d = '/' := by
            have := List.all_eq_true.mp h.2 d hdm
            simpa using this
          show (if d = '/' then some r else none) = none
          rw [if_neg this]
    · rw [if_neg hv]

theorem matchVer_seg_none (folder R : List Char) (hnz : ¬ folder = [])
    (hns : folder.all (fun c => !(c = '/')) = true)
    (hv : isVNum folder = false) : matchVer (folder ++ '/' :: R) = none := by
  cases folder with
  | nil => exact absurd rfl hnz
  | cons c frest =>
    rw [List.all_cons, Bool.and_eq_true] at hns
    rw [List.cons_append, matchVer_cons]
    by_cases hc : c = 'v'
    · rw [if_pos hc]
      subst hc
      rw [isVNum] at hv
      simp only [beq_self_eq_true, Bool.true_and] at hv
      by_cases hfe : frest = []
      · subst hfe
        simp [List.takeWhile_cons]
      · have hfne : frest.isEmpty = false := by
          cases frest with
          | nil => exact absurd rfl hfe
          | cons a b => rfl
        rw [hfne] at hv
        simp only [Bool.not_false, Bool.true_and] at hv
        have hnall : ¬ frest.all Char.isDigit = true := by
          rw [hv]; exact Bool.false_ne_true
        by_cases he :
            (((frest ++ '/' :: R).takeWhile Char.isDigit).isEmpty : Bool) = true
        · rw [if_pos he]
        · rw [if_neg he]
          rw [dropWhile_append_not_all Char.isDigit frest _ hnall]
          rcases hd : frest.dropWhile Char.isDigit with _ | ⟨d, r⟩
          · exact absurd hd (dropWhile_ne_nil_of_not_all Char.isDigit frest hnall)
          · rw [List.cons_append]
            have hdm : d ∈ frest := mem_of_dropWhile_cons Char.isDigit frest d r hd
            have : ¬ d = '/' := by
              have := List.all_eq_true.mp hns.2 d hdm
              simpa using this
            show (if d = '/' then some (r ++ '/' :: R) else none) = none
            rw [if_neg this]
    · rw [if_neg hc]

/-! ## `starLoop` lemmas: the greedy star and its continuation -/

theorem contHere_none_of_no_slash (cs : List Char)
    (h : cs.all (fun c => !(c = '/')) = true) : contHere cs = none := by
  unfold contHere
  rw [matchVer_no_slash cs h]

theorem starLoop_no_slash (cs : List Char)
    (h : cs.all (fun c => !(c = '/')) = true) : starLoop cs = none := by
  cases cs with
  | nil =>
    unfold starLoop
    exact contHere_none_of_no_slash [] (by rfl)
  | cons c rest =>
    rw [List.all_cons, Bool.and_eq_true] at h
    have hdw : rest.dropWhile (fun x => !(x = '/')) = [] := by
      rw [List.dropWhile_eq_nil_iff]
      intro x hx
      exact List.all_eq_true.mp h.2 x hx
    have hcont : contHere (c :: rest) = none :=
      contHere_none_of_no_slash (c :: rest)
        (by rw [List.all_cons, Bool.and_eq_true]; exact h)
    unfold starLoop
    by_cases hc : c = '/'
    · rw [if_pos hc]
      exact hcont
    · rw [if_neg hc]
      split
      next h2 => exact hcont
      next x rest2 h2 =>
        rw [hdw] at h2
        exact absurd h2 (by simp)

theorem starLoop_seg_some (T A' cap : List Char) (hnz : ¬ T = [])
    (hns : T.all (fun c => !(c = '/')) = true) (h : starLoop A' = some cap) :
    starLoop (T ++ '/' :: A') = some cap := by
  cases T with
  | nil => exact absurd rfl hnz
  | cons t T2 =>
    rw [List.all_cons, Bool.and_eq_true] at hns
    have hct : ¬ t = '/' := by simpa using hns.1
    have hdw : (T2 ++ '/' :: A').dropWhile (fun x => !(x = '/')) = '/' :: A' := by
      rw [dropWhile_append_all _ T2 _ hns.2]
      simp [List.dropWhile_cons]
    show starLoop (t :: (T2 ++ '/' :: A')) = some cap
    unfold starLoop
    rw [if_neg hct]
    split
    next h2 =>
      rw [hdw] at h2
      exact absurd h2 (by simp)
    next x rest2 h2 =>
      rw [hdw] at h2
      injection h2 with hx hr
      subst hr
      rw [h]

theorem starLoop_seg_none (T A' : List Char) (hnz : ¬ T = [])
    (hns : T.all (fun c => !(c = '/')) = true) (h : starLoop A' = none) :
    starLoop (T ++ '/' :: A') = contHere (T ++ '/' :: A') := by
  cases T with
  | nil => exact absurd rfl hnz
  | cons t T2 =>
    rw [List.all_cons, Bool.and_eq_true] at hns
    have hct : ¬ t = '/' := by simpa using hns.1
    have hdw : (T2 ++ '/' :: A').dropWhile (fun x => !(x = '/')) = '/' :: A' := by
      rw [dropWhile_append_all _ T2 _ hns.2]
      simp [List.dropWhile_cons]
    show starLoop (t :: (T2 ++ '/' :: A')) =
      contHere (t :: (T2 ++ '/' :: A'))
    unfold starLoop
    rw [if_neg hct]
    split
    next h2 => rfl
    next x rest2 h2 =>
      rw [hdw] at h2
      injection h2 with hx hr
      subst hr
      rw [h]

theorem starLoop_ledJoin :
    ∀ (segs : List (List Char)) (A cap : List Char),
      (∀ m ∈ segs, ¬ m = [] ∧ m.all (fun c => !(c = '/')) = true) →
      starLoop A = some cap → starLoop (ledJoin segs A) = some cap := by
  intro segs
  induction segs with
  | nil => intro A cap _ h; exact h
  | cons s ss ih =>
    intro A cap hsegs h
    have hs := hsegs s (List.mem_cons_self s ss)
    show starLoop (s ++ '/' :: ledJoin ss A) = some cap
    exact starLoop_seg_some s _ cap hs.1 hs.2
      (ih A cap (fun m hm => hsegs m (List.mem_cons_of_mem s hm)) h)

/-- Digits contain no slash. -/
theorem digits_no_slash (d : List Char) (hdd : d.all Char.isDigit = true) :
    d.all (fun c => !(c = '/')) = true := by
  rw [List.all_eq_true]
  intro c hc
  have hdg := List.all_eq_true.mp hdd c hc
  simp only [Bool.not_eq_true']
  simp only [decide_eq_false_iff_not]
  intro he
  subst he
  exact absurd hdg (by decide)

/-- The star against `v<digits>/<folder>/<name>.<ext>`: greedy consumption of
`v<digits>` and `folder` fails downstream, so the star stops before the
version segment and the lazy capture yields `folder/name`. -/
theorem starLoop_vPart (d folder name ext : List Char)
    (hd : ¬ d = []) (hdd : d.all Char.isDigit = true)
    (hfz : ¬ folder = []) (hfs : folder.all (fun c => !(c = '/')) = true)
    (hfd : folder.all jsDot = true) (hfv : isVNum folder = false)
    (hnz : ¬ name = []) (hnns : name.all (fun c => !(c = '/')) = true)
    (hnd : name.all jsDot = true)
    (hez : ¬ ext = []) (hed : ext.all (fun c => !(c = '.')) = true)
    (hes : ext.all (fun c => !(c = '/')) = true) :
    starLoop (vPart d folder name ext) = some (folder ++ '/' :: name) := by
  have htail : (name ++ '.' :: ext).all (fun c => !(c = '/')) = true := by
    rw [List.all_append, hnns]
    simp [List.all_cons, hes]
  have h1 : starLoop (name ++ '.' :: ext) = none := starLoop_no_slash _ htail
  have h2 : starLoop (folder ++ '/' :: (name ++ '.' :: ext)) = none := by
    rw [starLoop_seg_none folder _ hfz hfs h1]
    unfold contHere
    rw [matchVer_seg_none folder _ hfz hfs hfv]
  have hvz : ¬ ('v' :: d) = [] := by simp
  have hvs : ('v' :: d).all (fun c => !(c = '/')) = true := by
    rw [List.all_cons, digits_no_slash d hdd]
    simp
  rw [show vPart d folder name ext =
    ('v' :: d) ++ '/' :: (folder ++ '/' :: (name ++ '.' :: ext)) from rfl]
  rw [starLoop_seg_none ('v' :: d) _ hvz hvs h2]
  unfold contHere
  rw [matchVer_spec d (folder ++ '/' :: (name ++ '.' :: ext)) hd hdd]
  show lazyCap [] (folder ++ '/' :: (name ++ '.' :: ext))
    = some (folder ++ '/' :: name)
  have hsplit : folder ++ '/' :: (name ++ '.' :: ext) =
      (folder ++ '/' :: name) ++ '.' :: ext := by
    simp [List.append_assoc]
  rw [hsplit]
  have hM : ¬ (folder ++ '/' :: name) = [] := by simp
  have hMd : (folder ++ '/' :: name).all jsDot = true := by
    rw [List.all_append, hfd]
    simp only [List.all_cons, hnd, Bool.true_and, Bool.and_true]
    decide
  rw [lazyCap_spec (folder ++ '/' :: name) hM hMd [] ext hez hed]
  simp

/-! ## Position-walk lemmas for `findUpload` and `findCloudName` -/

theorem findUpload_cons (c : Char) (rest : List Char) :
    findUpload (c :: rest) =
      (if pfx upSep (c :: rest) then
        match starLoop ((c :: rest).drop upSep.length) with
        | some cap => some cap
        | none => findUpload rest
      else findUpload rest) := rfl

theorem findUpload_skip :
    ∀ (p rest : List Char), p.all (fun c => !(c = '/')) = true →
      findUpload (p ++ rest) = findUpload rest := by
  intro p
  induction p with
  | nil => intro rest _; rfl
  | cons c p2 ih =>
    intro rest h
    rw [List.all_cons, Bool.and_eq_true] at h
    have hc : ¬ '/' = c := by
      intro he
      rw [← he] at h
      simpa using h.1
    show findUpload (c :: (p2 ++ rest)) = findUpload rest
    rw [findUpload_cons]
    have hpfx : pfx upSep (c :: (p2 ++ rest)) = false :=
      pfx_head_ne '/' c _ _ hc
    rw [hpfx]
    simp only [Bool.false_eq_true, if_false]
    exact ih rest h.2

theorem findUpload_at_sep (A cap : List Char) (h : starLoop A = some cap) :
    findUpload (upSep ++ A) = some cap := by
  show findUpload ('/' :: (['u', 'p', 'l', 'o', 'a', 'd', '/'] ++ A)) = some cap
  rw [findUpload_cons]
  have hp : pfx upSep ('/' :: (['u', 'p', 'l', 'o', 'a', 'd', '/'] ++ A)) = true :=
    pfx_self_append upSep A
  rw [hp, if_pos rfl]
  have hdrop : (('/' : Char) :: (['u', 'p', 'l', 'o', 'a', 'd', '/'] ++ A)).drop
      upSep.length = A :=
    List.drop_left upSep A
  rw [hdrop, h]

/-- The walk over `/<s₀>/<s₁>/…/<sₖ>/upload/<A>`: earlier positions either
fail the `/upload/` literal, or (a segment literally named `upload`) succeed
with the same capture because the star absorbs the intervening segments. -/
theorem findUpload_led :
    ∀ (S : List (List Char)) (A cap : List Char),
      (∀ m ∈ S, ¬ m = [] ∧ m.all (fun c => !(c = '/')) = true) →
      starLoop A = some cap →
      findUpload ('/' :: ledJoin (S ++ [uploadSeg]) A) = some cap := by
  intro S
  induction S with
  | nil =>
    intro A cap _ h
    show findUpload ('/' :: ledJoin [uploadSeg] A) = some cap
    have he : ('/' :: ledJoin [uploadSeg] A) = upSep ++ A := rfl
    rw [he]
    exact findUpload_at_sep A cap h
  | cons s S2 ih =>
    intro A cap hS h
    have hs := hS s (List.mem_cons_self s S2)
    have hS2 : ∀ m ∈ S2, ¬ m = [] ∧ m.all (fun c => !(c = '/')) = true :=
      fun m hm => hS m (List.mem_cons_of_mem s hm)
    show findUpload ('/' :: (s ++ '/' :: ledJoin (S2 ++ [uploadSeg]) A)) = some cap
    by_cases hsu : s = uploadSeg
    · subst hsu
      have he : ('/' :: (uploadSeg ++ '/' :: ledJoin (S2 ++ [uploadSeg]) A))
          = upSep ++ ledJoin (S2 ++ [uploadSeg]) A := rfl
      rw [he]
      refine findUpload_at_sep _ cap
        (starLoop_ledJoin (S2 ++ [uploadSeg]) A cap ?_ h)
      intro m hm
      rcases List.mem_append.mp hm with h1 | h1
      · exact hS2 m h1
      · rcases List.mem_singleton.mp h1 with rfl
        exact ⟨by simp [uploadSeg], by decide⟩
    · rw [findUpload_cons]
      have hpfx : pfx upSep ('/' :: (s ++ '/' :: ledJoin (S2 ++ [uploadSeg]) A))
          = false := by
        by_cases hb : pfx upSep ('/' :: (s ++ '/' :: ledJoin (S2 ++ [uploadSeg]) A))
            = true
        · exfalso
          have hb2 : pfx (uploadSeg ++ '/' :: [])
              (s ++ '/' :: ledJoin (S2 ++ [uploadSeg]) A) = true := by
            have hb3 : pfx ('/' :: (uploadSeg ++ '/' :: []))
                ('/' :: (s ++ '/' :: ledJoin (S2 ++ [uploadSeg]) A)) = true := hb
            rwa [pfx_cons_same] at hb3
          exact hsu
            (pfx_slash_seg uploadSeg s [] _ (by decide) hs.2 hb2).symm
        · exact Bool.eq_false_iff.mpr hb
      rw [hpfx]
      simp only [Bool.false_eq_true, if_false]
      rw [findUpload_skip s _ hs.2]
      exact ih A cap hS2 h

theorem findCloudName_cons (c : Char) (rest : List Char) :
    findCloudName (c :: rest) =
      (if pfx cnSep (c :: rest) then
        if (((c :: rest).drop cnSep.length).takeWhile (fun x => !(x = '/'))).isEmpty
        then findCloudName rest
        else some (((c :: rest).drop cnSep.length).takeWhile (fun x => !(x = '/')))
      else findCloudName rest) := rfl

theorem findCloudName_skip :
    ∀ (p rest : List Char), p.all (fun c => !(c = 'c')) = true →
      findCloudName (p ++ rest) = findCloudName rest := by
  intro p
  induction p with
  | nil => intro rest _; rfl
  | cons x p2 ih =>
    intro rest h
    rw [List.all_cons, Bool.and_eq_true] at h
    have hc : ¬ 'c' = x := by
      intro he
      rw [← he] at h
      simpa using h.1
    show findCloudName (x :: (p2 ++ rest)) = findCloudName rest
    rw [findCloudName_cons]
    have hpfx : pfx cnSep (x :: (p2 ++ rest)) = false :=
      pfx_head_ne 'c' x _ _ hc
    rw [hpfx]
    simp only [Bool.false_eq_true, if_false]
    exact ih rest h.2

theorem findCloudName_at (account R : List Char) (hnz : ¬ account = [])
    (hns : account.all (fun c => !(c = '/')) = true) :
    findCloudName (cnSep ++ (account ++ '/' :: R)) = some account := by
  show findCloudName
    ('c' :: (['l', 'o', 'u', 'd', 'i', 'n', 'a', 'r', 'y', '.', 'c', 'o', 'm', '/']
      ++ (account ++ '/' :: R))) = some account
  rw [findCloudName_cons]
  have hp : pfx cnSep
      ('c' :: (['l', 'o', 'u', 'd', 'i', 'n', 'a', 'r', 'y', '.', 'c', 'o', 'm', '/']
        ++ (account ++ '/' :: R))) = true :=
    pfx_self_append cnSep (account ++ '/' :: R)
  rw [hp, if_pos rfl]
  have hdrop : (('c' : Char) ::
      (['l', 'o', 'u', 'd', 'i', 'n', 'a', 'r', 'y', '.', 'c', 'o', 'm', '/']
        ++ (account ++ '/' :: R))).drop cnSep.length = account ++ '/' :: R :=
    List.drop_left cnSep (account ++ '/' :: R)
  rw [hdrop]
  have htw : (account ++ '/' :: R).takeWhile (fun x => !(x = '/')) = account := by
    rw [takeWhile_append_all _ account _ hns]
    simp [List.takeWhile_cons]
  rw [htw]
  have hemp : account.isEmpty = false := by
    cases account with
    | nil => exact absurd rfl hnz
    | cons a b => rfl
  rw [hemp]
  simp

/-! ## Assembling the URL-shape theorem -/

theorem sepJoin_to_ledJoin :
    ∀ (segs : List (List Char)) (A : List Char),
      sepJoin segs ++ (upSep ++ A) = '/' :: ledJoin (segs ++ [uploadSeg]) A := by
  intro segs
  induction segs with
  | nil => intro A; rfl
  | cons s ss ih =>
    intro A
    show ('/' :: (s ++ sepJoin ss)) ++ (upSep ++ A)
      = '/' :: ledJoin ((s :: ss) ++ [uploadSeg]) A
    rw [List.cons_append, List.append_assoc, ih A]
    rfl

theorem hasSub_url (X : List Char) :
    hasSub hostMarker (httpsBase ++ X) = true := by
  have he : httpsBase ++ X
      = ['h', 't', 't', 'p', 's', ':', '/', '/', 'r', 'e', 's', '.']
        ++ (hostMarker ++ X) := by
    show (['h', 't', 't', 'p', 's', ':', '/', '/', 'r', 'e', 's', '.']
      ++ hostMarker) ++ X = _
    rw [List.append_assoc]
  rw [he]
  exact hasSub_append_right hostMarker _ _
    (hasSub_of_pfx hostMarker _ (pfx_self_append hostMarker X))

theorem findUpload_url (account : List Char) (mids : List (List Char))
    (A0 cap : List Char)
    (haccz : ¬ account = []) (haccs : account.all (fun c => !(c = '/')) = true)
    (hmids : ∀ m ∈ mids, ¬ m = [] ∧ m.all (fun c => !(c = '/')) = true)
    (hstar : starLoop A0 = some cap) :
    findUpload (httpsBase ++ (sepJoin (account :: mids) ++ (upSep ++ A0)))
      = some cap := by
  rw [sepJoin_to_ledJoin (account :: mids) A0]
  have he : httpsBase ++ '/' :: ledJoin ((account :: mids) ++ [uploadSeg]) A0
      = ['h', 't', 't', 'p', 's', ':']
        ++ ('/' :: ('/' :: ((['r', 'e', 's', '.'] ++ hostMarker)
          ++ ('/' :: ledJoin ((account :: mids) ++ [uploadSeg]) A0)))) := rfl
  rw [he]
  rw [findUpload_skip ['h', 't', 't', 'p', 's', ':'] _ (by decide)]
  rw [findUpload_cons]
  have hp1 : pfx upSep ('/' :: ('/' :: ((['r', 'e', 's', '.'] ++ hostMarker)
      ++ ('/' :: ledJoin ((account :: mids) ++ [uploadSeg]) A0)))) = false := by
    have h2 : pfx upSep ('/' :: ('/' :: ((['r', 'e', 's', '.'] ++ hostMarker)
        ++ ('/' :: ledJoin ((account :: mids) ++ [uploadSeg]) A0))))
        = pfx ['u', 'p', 'l', 'o', 'a', 'd', '/']
          ('/' :: ((['r', 'e', 's', '.'] ++ hostMarker)
            ++ ('/' :: ledJoin ((account :: mids) ++ [uploadSeg]) A0))) :=
      pfx_cons_same '/' _ _
    rw [h2]
    exact pfx_head_ne 'u' '/' _ _ (by decide)
  rw [hp1]
  simp only [Bool.false_eq_true, if_false]
  rw [findUpload_cons]
  have hp2 : pfx upSep ('/' :: ((['r', 'e', 's', '.'] ++ hostMarker)
      ++ ('/' :: ledJoin ((account :: mids) ++ [uploadSeg]) A0))) = false := by
    have h2 : pfx upSep ('/' :: ((['r', 'e', 's', '.'] ++ hostMarker)
        ++ ('/' :: ledJoin ((account :: mids) ++ [uploadSeg]) A0)))
        = pfx ['u', 'p', 'l', 'o', 'a', 'd', '/']
          ('r' :: ((['e', 's', '.'] ++ hostMarker)
            ++ ('/' :: ledJoin ((account :: mids) ++ [uploadSeg]) A0))) :=
      pfx_cons_same '/' _ _
    rw [h2]
    exact pfx_head_ne 'u' 'r' _ _ (by decide)
  rw [hp2]
  simp only [Bool.false_eq_true, if_false]
  rw [findUpload_skip (['r', 'e', 's', '.'] ++ hostMarker) _ (by decide)]
  exact findUpload_led (account :: mids) A0 cap
    (by
      intro m hm
      rcases List.mem_cons.mp hm with rfl | hm2
      · exact ⟨haccz, haccs⟩
      · exact hmids m hm2)
    hstar

theorem findCloudName_url (account : List Char) (mids : List (List Char))
    (A0 : List Char)
    (haccz : ¬ account = []) (haccs : account.all (fun c => !(c = '/')) = true) :
    findCloudName (httpsBase ++ (sepJoin (account :: mids) ++ (upSep ++ A0)))
      = some account := by
  rw [sepJoin_to_ledJoin (account :: mids) A0]
  have he : httpsBase ++ '/' :: ledJoin ((account :: mids) ++ [uploadSeg]) A0
      = ['h', 't', 't', 'p', 's', ':', '/', '/', 'r', 'e', 's', '.']
        ++ (cnSep ++ (account ++ '/' :: ledJoin (mids ++ [uploadSeg]) A0)) := by
    show (['h', 't', 't', 'p', 's', ':', '/', '/', 'r', 'e', 's', '.']
        ++ hostMarker)
      ++ '/' :: (account ++ '/' :: ledJoin (mids ++ [uploadSeg]) A0) = _
    rw [List.append_assoc]
    rfl
  rw [he]
  rw [findCloudName_skip ['h', 't', 't', 'p', 's', ':', '/', '/', 'r', 'e', 's', '.']
    _ (by decide)]
  exact findCloudName_at account _ haccz haccs

theorem extract_str_eq (s : String) :
    extractCloudinaryInfo (.str s) =
      (if s = "" then ⟨none, none⟩
      else if hasSub hostMarker s.data then
        ⟨(findUpload s.data).map (fun l => String.mk l),
         (findCloudName s.data).map (fun l => String.mk l)⟩
      else ⟨some s, none⟩) := rfl

/-- The full URL-shape extraction: a URL
`https://res.cloudinary.com/<account>/<mid₁>/…/<midₖ>/upload/v<d>/<folder>/<name>.<ext>`
yields public id `<folder>/<name>` and cloud name `<account>`. -/
theorem extract_url_spec (account d folder name ext : List Char)
    (mids : List (List Char))
    (haccz : ¬ account = []) (haccs : account.all (fun c => !(c = '/')) = true)
    (hmids : ∀ m ∈ mids, ¬ m = [] ∧ m.all (fun c => !(c = '/')) = true)
    (hd : ¬ d = []) (hdd : d.all Char.isDigit = true)
    (hfz : ¬ folder = []) (hfs : folder.all (fun c => !(c = '/')) = true)
    (hfd : folder.all jsDot = true) (hfv : isVNum folder = false)
    (hnz : ¬ name = []) (hnns : name.all (fun c => !(c = '/')) = true)
    (hnd : name.all jsDot = true)
    (hez : ¬ ext = []) (hed : ext.all (fun c => !(c = '.')) = true)
    (hes : ext.all (fun c => !(c = '/')) = true) :
    extractCloudinaryInfo (.str (String.mk (httpsBase
        ++ (sepJoin (account :: mids) ++ (upSep ++ vPart d folder name ext)))))
      = ⟨some (String.mk (folder ++ '/' :: name)), some (String.mk account)⟩ := by
  have hstar : starLoop (vPart d folder name ext) = some (folder ++ '/' :: name) :=
    starLoop_vPart d folder name ext hd hdd hfz hfs hfd hfv hnz hnns hnd hez hed hes
  have hfu := findUpload_url account mids (vPart d folder name ext) _
    haccz haccs hmids hstar
  have hfc := findCloudName_url account mids (vPart d folder name ext) haccz haccs
  have hne : ¬ String.mk (httpsBase
      ++ (sepJoin (account :: mids) ++ (upSep ++ vPart d folder name ext))) = "" := by
    intro hcontra
    have h2 : httpsBase
        ++ (sepJoin (account :: mids) ++ (upSep ++ vPart d folder name ext))
        = [] := congrArg String.data hcontra
    simp [httpsBase, hostMarker] at h2
  rw [extract_str_eq, if_neg hne]
  have hdata : (String.mk (httpsBase
      ++ (sepJoin (account :: mids) ++ (upSep ++ vPart d folder name ext)))).data
      = httpsBase ++ (sepJoin (account :: mids) ++ (upSep ++ vPart d folder name ext)) :=
    rfl
  rw [hdata, hasSub_url, if_pos rfl, hfu, hfc]
  rfl

theorem resolveIdentifier_eq (a b : JSValue) :
    resolveIdentifier a b =
      (jsOr a (optToJS (extractCloudinaryInfo b).public_id),
       (extractCloudinaryInfo b).cloud_name) := rfl

/-- Claim C3 (amended): identifier resolution obeys: (a) an explicit raw
identifier, when present and nonempty, is used in preference to any
URL-derived one; (b) a URL of the form
`https://res.cloudinary.com/<account>/…/upload/v<digits>/<folder>/<name>.<ext>`
resolves identifier `<folder>/<name>` (transformation segments skipped, last
extension stripped) and account `<account>`; (c) every nonempty string not
containing the host marker resolves to itself with a null account.  (The
empty string — JavaScript-falsy — does not resolve to itself; see the
counterexample.) -/
theorem resolveIdentifier_spec :
    (∀ (raw : String) (url : JSValue), ¬ raw = "" →
      (resolveIdentifier (.str raw) url).1 = .str raw) ∧
    (∀ (account d folder name ext : List Char) (mids : List (List Char)),
      ¬ account = [] → account.all (fun c => !(c = '/')) = true →
      (∀ m ∈ mids, ¬ m = [] ∧ m.all (fun c => !(c = '/')) = true) →
      ¬ d = [] → d.all Char.isDigit = true →
      ¬ folder = [] → folder.all (fun c => !(c = '/')) = true →
      folder.all jsDot = true → isVNum folder = false →
      ¬ name = [] → name.all (fun c => !(c = '/')) = true →
      name.all jsDot = true →
      ¬ ext = [] → ext.all (fun c => !(c = '.')) = true →
      ext.all (fun c => !(c = '/')) = true →
      resolveIdentifier .undefined (.str (String.mk (httpsBase
          ++ (sepJoin (account :: mids) ++ (upSep ++ vPart d folder name ext)))))
        = (.str (String.mk (folder ++ '/' :: name)), some (String.mk account))) ∧
    (∀ s : String, ¬ s = "" → hasSub hostMarker s.data = false →
      resolveIdentifier .undefined (.str s) = (.str s, none)) := by
  refine ⟨?_, ?_, ?_⟩
  · intro raw url hraw
    rw [resolveIdentifier_eq]
    have ht : truthy (.str raw) = true := by simp [truthy, hraw]
    show jsOr (.str raw) _ = .str raw
    unfold jsOr
    rw [ht]
    simp
  · intro account d folder name ext mids h1 h2 h3 h4 h5 h6 h7 h8 h9 h10 h11
      h12 h13 h14 h15
    rw [resolveIdentifier_eq]
    rw [extract_url_spec account d folder name ext mids h1 h2 h3 h4 h5 h6 h7 h8
      h9 h10 h11 h12 h13 h14 h15]
    rfl
  · intro s hs hm
    have hx : extractCloudinaryInfo (.str s) = ⟨some s, none⟩ := by
      rw [extract_str_eq, if_neg hs, if_neg (by simp [hm])]
    rw [resolveIdentifier_eq, hx]
    rfl

/-- Witness for C3 at the URL
`https://res.cloudinary.com/demo/image/upload/v123/folder/pic.png`. -/
theorem resolveIdentifier_spec_witness :
    (¬ (['d', 'e', 'm', 'o'] : List Char) = []) ∧
    ((['d', 'e', 'm', 'o'] : List Char).all (fun c => !(c = '/')) = true) ∧
    (∀ m ∈ [(['i', 'm', 'a', 'g', 'e'] : List Char)],
      ¬ m = [] ∧ m.all (fun c => !(c = '/')) = true) ∧
    (¬ (['1', '2', '3'] : List Char) = []) ∧
    ((['1', '2', '3'] : List Char).all Char.isDigit = true) ∧
    (¬ (['f', 'o', 'l', 'd', 'e', 'r'] : List Char) = []) ∧
    ((['f', 'o', 'l', 'd', 'e', 'r'] : List Char).all (fun c => !(c = '/')) = true) ∧
    ((['f', 'o', 'l', 'd', 'e', 'r'] : List Char).all jsDot = true) ∧
    (isVNum ['f', 'o', 'l', 'd', 'e', 'r'] = false) ∧
    (¬ (['p', 'i', 'c'] : List Char) = []) ∧
    ((['p', 'i', 'c'] : List Char).all (fun c => !(c = '/')) = true) ∧
    ((['p', 'i', 'c'] : List Char).all jsDot = true) ∧
    (¬ (['p', 'n', 'g'] : List Char) = []) ∧
    ((['p', 'n', 'g'] : List Char).all (fun c => !(c = '.')) = true) ∧
    ((['p', 'n', 'g'] : List Char).all (fun c => !(c = '/')) = true) ∧
    resolveIdentifier .undefined (.str (String.mk (httpsBase
        ++ (sepJoin (['d', 'e', 'm', 'o'] :: [['i', 'm', 'a', 'g', 'e']])
          ++ (upSep ++ vPart ['1', '2', '3'] ['f', 'o', 'l', 'd', 'e', 'r']
            ['p', 'i', 'c'] ['p', 'n', 'g'])))))
      = (.str (String.mk (['f', 'o', 'l', 'd', 'e', 'r'] ++ '/' :: ['p', 'i', 'c'])),
         some (String.mk ['d', 'e', 'm', 'o'])) :=
  ⟨by decide, by decide, by decide, by decide, by decide, by decide, by decide,
   by decide, by decide, by decide, by decide, by decide, by decide, by decide,
   by decide,
   resolveIdentifier_spec.2.1 ['d', 'e', 'm', 'o'] ['1', '2', '3']
     ['f', 'o', 'l', 'd', 'e', 'r'] ['p', 'i', 'c'] ['p', 'n', 'g']
     [['i', 'm', 'a', 'g', 'e']] (by decide) (by decide) (by decide) (by decide)
     (by decide) (by decide) (by decide) (by decide) (by decide) (by decide)
     (by decide) (by decide) (by decide) (by decide) (by decide)⟩

/-- Counterexample to C3 as stated: the empty string contains no host marker
yet resolves to a null identifier, not to itself; and an empty — though
present — raw identifier loses to the URL-derived one (JavaScript `||` on a
falsy left operand). -/
theorem resolveIdentifier_counterexample :
    resolveIdentifier .undefined (.str "") = (.null, none) ∧
    ¬ (resolveIdentifier .undefined (.str "")).1 = .str "" ∧
    (resolveIdentifier (.str "") (.str "pic-id")).1 = .str "pic-id" := by
  refine ⟨by decide, by decide, by decide⟩

/-- Counterexample to C4 as stated: `"cloudinary.com/demo"` is an input from
which no identifier can be derived (the derived `public_id` is null), yet
the result is not the pair (null, null) — the account name `demo` is still
derived and returned. -/
theorem extractCloudinaryInfo_counterexample :
    (extractCloudinaryInfo (.str "cloudinary.com/demo")).public_id = none ∧
    extractCloudinaryInfo (.str "cloudinary.com/demo") = ⟨none, some "demo"⟩ ∧
    ¬ extractCloudinaryInfo (.str "cloudinary.com/demo") = ⟨none, none⟩ := by
  refine ⟨by decide, by decide, by decide⟩

/-- Claim C4 (amended): ResolveIdentifier never throws (the function below is
total): absent, null, empty-string, numeric and boolean inputs all degrade
to (null, null) — the `catch` turns the `.includes` TypeError on truthy
non-strings into nulls — and for a host-marker string from which no
identifier can be derived, the identifier is null while the account name
may still be non-null. -/
theorem extractCloudinaryInfo_degrade :
    (extractCloudinaryInfo .undefined = ⟨none, none⟩) ∧
    (extractCloudinaryInfo .null = ⟨none, none⟩) ∧
    (extractCloudinaryInfo (.str "") = ⟨none, none⟩) ∧
    (∀ n : Int, extractCloudinaryInfo (.num n) = ⟨none, none⟩) ∧
    (∀ b : Bool, extractCloudinaryInfo (.bool b) = ⟨none, none⟩) ∧
    (∀ s : String, ¬ s = "" → hasSub hostMarker s.data = true →
      findUpload s.data = none →
      (extractCloudinaryInfo (.str s)).public_id = none) := by
  refine ⟨rfl, rfl, by decide, fun n => rfl, fun b => rfl, ?_⟩
  intro s hs hm hu
  rw [extractCloudinaryInfo, if_neg hs, if_pos hm]
  simp [hu]

/-- Witness for C4 at a concrete marker string with no derivable id. -/
theorem extractCloudinaryInfo_degrade_witness :
    (¬ ("cloudinary.com/x/y" : String) = "") ∧
    hasSub hostMarker ("cloudinary.com/x/y" : String).data = true ∧
    findUpload ("cloudinary.com/x/y" : String).data = none ∧
    (extractCloudinaryInfo (.str "cloudinary.com/x/y")).public_id = none :=
  ⟨by decide, by decide, by decide,
    extractCloudinaryInfo_degrade.2.2.2.2.2 "cloudinary.com/x/y" (by decide)
      (by decide) (by decide)⟩

/-- Claim C6: once the delete call reaches the provider (identifier present,
configuration complete, no account mismatch), the provider's result is
mapped `ok` ↦ 200, `not found` ↦ 404, anything else ↦ 400 (the
`Failed to delete image` provider-error answer). -/
theorem deleteImage_result_mapping (cfg : CloudinaryConfig)
    (public_id imageUrl : JSValue) (r : String)
    (hid : truthy (jsOr public_id
      (optToJS (extractCloudinaryInfo imageUrl).public_id)) = true)
    (hcfg : ¬ cfg.cloud_name = "" ∧ ¬ cfg.api_key = "" ∧ ¬ cfg.api_secret = "")
    (hmis : ∀ cn, (extractCloudinaryInfo imageUrl).cloud_name = some cn →
      cn = cfg.cloud_name) :
    (r = "ok" →
      deleteImageRoute cfg public_id imageUrl r = (.deleted, true) ∧
      DeleteImageResult.deleted.statusCode = 200) ∧
    (r = "not found" →
      deleteImageRoute cfg public_id imageUrl r = (.notFound, true) ∧
      DeleteImageResult.notFound.statusCode = 404) ∧
    (¬ r = "ok" → ¬ r = "not found" →
      deleteImageRoute cfg public_id imageUrl r = (.failed, true) ∧
      DeleteImageResult.failed.statusCode = 400) := by
  have hnot : (!(truthy (jsOr public_id
      (optToJS (extractCloudinaryInfo imageUrl).public_id)))) = false := by
    rw [hid]; rfl
  have hcfgf : (cfg.cloud_name = "" || cfg.api_key = "" || cfg.api_secret = "")
      = false := by
    rcases hcfg with ⟨h1, h2, h3⟩
    simp [h1, h2, h3]
  have hmisf :
      (match (extractCloudinaryInfo imageUrl).cloud_name with
        | some cn => !(cn = "") && !(cn = cfg.cloud_name)
        | none => false) = false := by
    rcases hcn : (extractCloudinaryInfo imageUrl).cloud_name with _ | cn
    · rfl
    · have := hmis cn hcn
      simp [this]
  refine ⟨?_, ?_, ?_⟩
  · intro hr
    subst hr
    simp [deleteImageRoute, hnot, hcfgf, hmisf, DeleteImageResult.statusCode]
  · intro hr
    subst hr
    simp [deleteImageRoute, hnot, hcfgf, hmisf, DeleteImageResult.statusCode]
  · intro h1 h2
    simp [deleteImageRoute, hnot, hcfgf, hmisf, h1, h2,
      DeleteImageResult.statusCode]

/-- Witness for C6: a raw identifier against the configured account, with
each of the three provider answers. -/
theorem deleteImage_result_mapping_witness :
    truthy (jsOr (.str "folder/pic")
      (optToJS (extractCloudinaryInfo .undefined).public_id)) = true ∧
    deleteImageRoute sampleCfg (.str "folder/pic") .undefined "ok" =
      (.deleted, true) ∧
    deleteImageRoute sampleCfg (.str "folder/pic") .undefined "not found" =
      (.notFound, true) ∧
    deleteImageRoute sampleCfg (.str "folder/pic") .undefined "rate limited" =
      (.failed, true) :=
  ⟨by decide,
    ((deleteImage_result_mapping sampleCfg (.str "folder/pic") .undefined "ok"
      (by decide) ⟨by decide, by decide, by decide⟩
      (by intro cn hcn; simp [extractCloudinaryInfo] at hcn)).1 rfl).1,
    ((deleteImage_result_mapping sampleCfg (.str "folder/pic") .undefined
      "not found" (by decide) ⟨by decide, by decide, by decide⟩
      (by intro cn hcn; simp [extractCloudinaryInfo] at hcn)).2.1 rfl).1,
    ((deleteImage_result_mapping sampleCfg (.str "folder/pic") .undefined
      "rate limited" (by decide) ⟨by decide, by decide, by decide⟩
      (by intro cn hcn; simp [extractCloudinaryInfo] at hcn)).2.2 (by decide)
      (by decide)).1⟩

/-- Claim C7: with a complete configuration, whenever the URL-derived cloud
name is present and differs from the configured one, the route answers 400
(either the mismatch rejection or, when no identifier resolved at all, the
missing-identifier rejection) and the provider delete call is never
issued. -/
theorem deleteImage_mismatch_guard (cfg : CloudinaryConfig)
    (public_id imageUrl : JSValue) (r : String) (cn : String)
    (hcfg : ¬ cfg.cloud_name = "" ∧ ¬ cfg.api_key = "" ∧ ¬ cfg.api_secret = "")
    (hcn : (extractCloudinaryInfo imageUrl).cloud_name = some cn)
    (hne : ¬ cn = cfg.cloud_name) :
    (deleteImageRoute cfg public_id imageUrl r).1.statusCode = 400 ∧
    (deleteImageRoute cfg public_id imageUrl r).2 = false := by
  have hcnne : ¬ cn = "" := extract_cloud_name_ne_empty imageUrl cn hcn
  have hcfgf : (cfg.cloud_name = "" || cfg.api_key = "" || cfg.api_secret = "")
      = false := by
    rcases hcfg with ⟨h1, h2, h3⟩
    simp [h1, h2, h3]
  have hmist :
      (match (extractCloudinaryInfo imageUrl).cloud_name with
        | some c => !(c = "") && !(c = cfg.cloud_name)
        | none => false) = true := by
    rw [hcn]
    simp [hcnne, hne]
  by_cases hid : truthy (jsOr public_id
      (optToJS (extractCloudinaryInfo imageUrl).public_id)) = true
  · simp [deleteImageRoute, hid, hcfgf, hmist, DeleteImageResult.statusCode]
  · simp [deleteImageRoute, Bool.eq_false_iff.mpr hid,
      DeleteImageResult.statusCode]

/-- Witness for C7: a URL on the `demo` account against a configuration for
`mycloud` is rejected with 400 and the provider is not called. -/
theorem deleteImage_mismatch_guard_witness :
    (¬ sampleCfg.cloud_name = "" ∧ ¬ sampleCfg.api_key = "" ∧
      ¬ sampleCfg.api_secret = "") ∧
    (extractCloudinaryInfo
        (.str "https://res.cloudinary.com/demo/image/upload/v1/f/n.png")).cloud_name
      = some "demo" ∧
    ¬ ("demo" : String) = sampleCfg.cloud_name ∧
    (deleteImageRoute sampleCfg .undefined
        (.str "https://res.cloudinary.com/demo/image/upload/v1/f/n.png")
        "ok").1.statusCode = 400 ∧
    (deleteImageRoute sampleCfg .undefined
        (.str "https://res.cloudinary.com/demo/image/upload/v1/f/n.png")
        "ok").2 = false :=
  ⟨⟨by decide, by decide, by decide⟩, by decide, by decide,
    (deleteImage_mismatch_guard sampleCfg .undefined
      (.str "https://res.cloudinary.com/demo/image/upload/v1/f/n.png") "ok" "demo"
      ⟨by decide, by decide, by decide⟩ (by decide) (by decide)).1,
    (deleteImage_mismatch_guard sampleCfg .undefined
      (.str "https://res.cloudinary.com/demo/image/upload/v1/f/n.png") "ok" "demo"
      ⟨by decide, by decide, by decide⟩ (by decide) (by decide)).2⟩
